import Mathlib

/-!
Verification of the error-rate / edit-distance engine of `src/eval/edit_distance.py`.

The Python module is shallowly embedded below: token sequences become `List String`,
the dynamic-programming matrix becomes a `List (List Nat)` whose cells are computed
by the recursive function `levCell` (the iterative fill of the Python code computes
exactly this recurrence, since every cell is written once, after its three
dependencies), the backtrace `while` loop becomes a fuel-indexed loop (the fuel is
an upper bound on the iteration count, proved sufficient below), and the
`try`/`except IndexError` state of `get_alignment` is carried as `Option String`
values (`none` models a Python variable that has never been bound, so reading it
would raise `NameError`; `get_alignment` returns `none` in that case).
Python `float` arithmetic in `error_rate` is modelled bit-exactly: `floatRate`
computes `(error_count/total)*100` in IEEE-754 binary64 semantics — the division
of two ints correctly rounded to 53 bits (round to nearest, ties to even), then
the product with the exactly representable 100 rounded the same way — and returns
the exact rational value of the resulting double.
-/

set_option maxHeartbeats 1000000

/-- The empty string, the out-of-range default used with `List.getD`. -/
def emptyWord : String := ""

/-- Substitution cost used by `levenshtein_distance`:
`1 if source[i-1] != target[j-1] else 0` (exact string comparison). -/
def subCost (a b : String) : Nat := if a ≠ b then 1 else 0

/-- Cell `(i, j)` of the matrix built by `levenshtein_distance` in
`src/eval/edit_distance.py`: `d[0][0] = 0`, the first column and first row grow by 1,
and every interior cell is
`min(d[i-1][j] + 1, d[i][j-1] + 1, d[i-1][j-1] + subCost)`. -/
def levCell (source target : List String) : Nat → Nat → Nat
  | 0, 0 => 0
  | i+1, 0 => levCell source target i 0 + 1
  | 0, j+1 => levCell source target 0 j + 1
  | i+1, j+1 =>
      min (levCell source target i (j+1) + 1)
        (min (levCell source target (i+1) j + 1)
          (levCell source target i j +
            subCost (source.getD i emptyWord) (target.getD j emptyWord)))

/-- The `(len(source)+1) x (len(target)+1)` matrix returned by
`levenshtein_distance` in `src/eval/edit_distance.py`. -/
def levenshtein_distance (source target : List String) : List (List Nat) :=
  (List.range (source.length + 1)).map (fun i =>
    (List.range (target.length + 1)).map (fun j => levCell source target i j))

/-- One-character strings used literally by the Python code. -/
def starWord : String := "*"

/-- The blank operation-code cell emitted for `equal`. -/
def blankWord : String := " "

/-- The separator bar of an alignment column. -/
def barStr : String := "|"

/-- One iteration of the `while` loop of `edit_operations` in
`src/eval/edit_distance.py`, at a cell `(row, col) ≠ (0, 0)`: read the current
cell and its three predecessors (with the boundary adjustments of the source at
row 0 / column 0), pick `cheapest = options.index(min(options))` over
`options = [diagonal, top, left]` (the first attained minimum), and return the
emitted code together with the updated `(row, col)`. The `- 1` index arithmetic
of the Python is `Nat` subtraction here; on the reachable branches the
decremented coordinate is always positive. The matrix cells are read through
`levCell`, which computes exactly the cells of `levenshtein_distance`. -/
def editStep (source target : List String) (row col : Nat) : Char × Nat × Nat :=
  let currentcell := levCell source target row col
  -- (diagonal, top, left), including the boundary adjustments of the source
  let dtl : Nat × Nat × Nat :=
    if row ≠ 0 ∧ col ≠ 0 then
      (levCell source target (row-1) (col-1), levCell source target (row-1) col,
        levCell source target row (col-1))
    else if row = 0 then
      (levCell source target row (col-1) + 1, levCell source target row col + 1,
        levCell source target row (col-1))
    else
      (levCell source target (row-1) col + 1, levCell source target (row-1) col,
        levCell source target row col + 1)
  -- cheapest = options.index(min(options)): the first branch attaining the minimum
  if dtl.1 ≤ dtl.2.1 ∧ dtl.1 ≤ dtl.2.2 then
    ((if dtl.1 = currentcell then 'e' else 's'), row - 1, col - 1)
  else if dtl.2.1 ≤ dtl.2.2 then
    ('d', row - 1, col)
  else
    ('i', row, col - 1)

/-- The `while` loop of `edit_operations`, with an explicit fuel bound for the
iteration count (each reachable iteration strictly decreases `row + col`, so the
fuel passed by `edit_operations` is never exhausted; this is proved below).
`codes` is the accumulator into which the code of each step is prepended
(`codes.insert(0, ...)`). -/
def editOpsLoop (source target : List String) : Nat → Nat → Nat → List Char → List Char
  | 0, _, _, codes => codes
  | fuel+1, row, col, codes =>
    if row = 0 ∧ col = 0 then codes
    else
      editOpsLoop source target fuel (editStep source target row col).2.1
        (editStep source target row col).2.2 ((editStep source target row col).1 :: codes)

/-- The function `edit_operations` of `src/eval/edit_distance.py`: backtrace of the
Levenshtein matrix from `(N, M)` to `(0, 0)`. -/
def edit_operations (source target : List String) : List Char :=
  editOpsLoop source target (source.length + target.length + 1)
    source.length target.length []

/-- The backtrace started from an arbitrary cell `(row, col)`, with just enough
fuel; `edit_operations source target = walkOps source target N M` definitionally. -/
def walkOps (source target : List String) (row col : Nat) : List Char :=
  editOpsLoop source target (row + col + 1) row col []

/-- Modelled from the spec wording of section 4.2 for claim C2: start at `(N, M)`;
at each step compute the diagonal, above and left predecessor costs, substituting
boundary-adjusted costs at row 0 / column 0 (the missing neighbour is a forced
move costing one more); move to the direction of minimum cost, ties broken by
checking diagonal first, then above (emitting delete), then left (emitting
insert); the diagonal move emits `equal` exactly when the diagonal predecessor
cost equals the current cell's cost, else `substitute`. The codes are emitted here
in walk order, i.e. from `(N, M)` backwards; the claim says the function returns
them in source-index-ascending order, which is the reverse of this list. -/
def backtraceSpecWalk (source target : List String) : Nat → Nat → Nat → List Char
  | 0, _, _ => []
  | fuel+1, row, col =>
    if row = 0 ∧ col = 0 then []
    else
      let currentcell := levCell source target row col
      let dtl : Nat × Nat × Nat :=
        if row ≠ 0 ∧ col ≠ 0 then
          (levCell source target (row-1) (col-1), levCell source target (row-1) col,
            levCell source target row (col-1))
        else if row = 0 then
          (levCell source target row (col-1) + 1, levCell source target row col + 1,
            levCell source target row (col-1))
        else
          (levCell source target (row-1) col + 1, levCell source target (row-1) col,
            levCell source target row col + 1)
      if dtl.1 ≤ dtl.2.1 ∧ dtl.1 ≤ dtl.2.2 then
        (if dtl.1 = currentcell then 'e' else 's') ::
          backtraceSpecWalk source target fuel (row-1) (col-1)
      else if dtl.2.1 ≤ dtl.2.2 then
        'd' :: backtraceSpecWalk source target fuel (row-1) col
      else
        'i' :: backtraceSpecWalk source target fuel row (col-1)

/-- The function `count_word_errors` of `src/eval/edit_distance.py`: counts the
codes in `'dis'` and pairs the count with the source length. -/
def count_word_errors (source target : List String) : Nat × Nat :=
  ((edit_operations source target).foldl
    (fun error_count code =>
      if code = 'd' ∨ code = 'i' ∨ code = 's' then error_count + 1 else error_count) 0,
   source.length)

/-- The function `prepare_special_error_type` of `src/eval/edit_distance.py`.
A Python `set` of strings (for `copy_chars` a set of one-character strings) is
modelled as a `List String` used only through membership; iterating over the
characters of a Python string yields one-character strings, modelled by
`Char.toString`. Note that in the `copy_chars` branch the target filter tests
membership in the already filtered source. -/
def prepare_special_error_type (source target : List String) (error_type : String)
    (charset : List String) : List String × List String :=
  if error_type = "copy_chars" then
    let source2 := source.filter (fun word => word.toList.all (fun c => charset.contains c.toString))
    let target2 := target.filter (fun word =>
      word.toList.all (fun c => charset.contains c.toString) && source2.contains word)
    (source2, target2)
  else if error_type = "uppercase" then
    (source.filter (fun word => word.toList.any (fun c => c.isUpper)),
     target.filter (fun word => word.toList.any (fun c => c.isUpper)))
  else if error_type = "digits" then
    (source.filter (fun word => word.toList.any (fun c => c.isDigit)),
     target.filter (fun word => word.toList.any (fun c => c.isDigit)))
  else if error_type = "punctuation" ∨ error_type = "symbols" then
    (source.filter (fun word => charset.contains word),
     target.filter (fun word => charset.contains word))
  else
    (source, target)

/-- The function `count_special_errors` of `src/eval/edit_distance.py`. -/
def count_special_errors (source target : List String) (error_type : String)
    (charset : List String) : Nat × Nat :=
  let st := prepare_special_error_type source target error_type charset
  count_word_errors st.1 st.2

/-- Fuelled floor of the base-2 logarithm of a natural number (`n` itself is
always enough fuel, since the argument halves at every step); written with
structural recursion so that the kernel can evaluate it. -/
def natLog2F : Nat → Nat → Nat
  | 0, _ => 0
  | fuel+1, n => if n ≤ 1 then 0 else natLog2F fuel (n / 2) + 1

/-- Floor of the base-2 logarithm of a natural number. -/
def log2Nat (n : Nat) : Nat := natLog2F n n

/-- Floor of the base-2 logarithm of the positive fraction `n / d`
(`n, d ≥ 1`): the unique `e` with `2 ^ e ≤ n / d < 2 ^ (e + 1)`. -/
def ilog2Frac (n d : Nat) : Int :=
  if d ≤ n then (log2Nat (n / d) : Int)
  else if d ≤ n * 2 ^ log2Nat (d / n) then -(log2Nat (d / n) : Int)
  else -((log2Nat (d / n) : Int) + 1)

/-- IEEE-754 binary64 rounding of the positive fraction `n / d` (`n, d ≥ 1`):
returns `(m, e)` with `n / d` rounded to `m * 2 ^ e`, the 53-bit significand
`m` obtained by round-to-nearest with ties to even. The exponent is unbounded,
so this coincides with binary64 on the whole normal range (the overflow and
subnormal ranges never arise for the error counts at hand). -/
def roundMantissa (n d : Nat) : Nat × Int :=
  let eL := ilog2Frac n d
  let shift := 52 - eL
  let bigN := if 0 ≤ shift then n * 2 ^ shift.toNat else n
  let bigD := if 0 ≤ shift then d else d * 2 ^ (-shift).toNat
  let q := bigN / bigD
  let r := bigN % bigD
  let m := if 2 * r < bigD then q
           else if bigD < 2 * r then q + 1
           else if q % 2 = 0 then q else q + 1
  (m, eL - 52)

/-- The Python expression `(error_count/total)*100` evaluated in IEEE-754
binary64 (`float`) arithmetic, for `total ≠ 0`: CPython's int/int true division
is the correctly rounded double of the exact quotient, and the multiplication by
the exactly representable `100` is rounded again (scaling by a power of two
commutes with binary rounding, so only the significand is re-rounded). The exact
rational value of the resulting double is returned. -/
def floatRate (a b : Int) : Rat :=
  if a = 0 then 0
  else
    let m1 := roundMantissa a.natAbs b.natAbs
    let m2 := roundMantissa (m1.1 * 100) 1
    (if (decide (a < 0) != decide (b < 0)) then -(m2.1 : Rat) else (m2.1 : Rat)) *
      (2 : Rat) ^ (m1.2 + m2.2)

/-- The function `error_rate` of `src/eval/edit_distance.py`; the Python float
computation `(error_count/total)*100` is modelled bit-exactly by `floatRate`. -/
def error_rate (error_count total : Int) : Int × Int × Rat :=
  if total = 0 then (error_count, total, 0)
  else (error_count, total, floatRate error_count total)

/-- The function `sentence_error` of `src/eval/edit_distance.py`. -/
def sentence_error (source target : String) : Nat :=
  if target = source then 0 else 1

/-- Python `str.strip()`: drop leading and trailing whitespace. -/
def pyStrip (s : String) : String :=
  String.mk (((s.toList.dropWhile Char.isWhitespace).reverse.dropWhile
    Char.isWhitespace).reverse)

/-- Python `str.split()` with no argument: split on whitespace runs, dropping
empty pieces. -/
def pySplit (s : String) : List String :=
  (s.split Char.isWhitespace).filter (fun w => w != emptyWord)

/-- Python `set(s)` for a string `s`: its characters as one-character strings
(membership-equivalent to the set). -/
def setOfChars (s : String) : List String := s.toList.map Char.toString

/-- The character and symbol sets given to `calculate_error_rates` through its
`config` dictionary. -/
structure Config where
  copy_chars : String
  punctuation : String
  symbols : String

/-- The running tallies of the corpus loop of `calculate_error_rates`. -/
structure Tallies where
  sents : Nat
  sent_errors : Nat
  words : Nat
  word_errors : Nat
  copy_words : Nat
  copy_errors : Nat
  upper_words : Nat
  upper_errors : Nat
  digit_words : Nat
  digit_errors : Nat
  punct_words : Nat
  punct_errors : Nat
  symbol_words : Nat
  symbol_errors : Nat

/-- All tallies start at zero. -/
def initTallies : Tallies := ⟨0, 0, 0, 0, 0, 0, 0, 0, 0, 0, 0, 0, 0, 0⟩

/-- One iteration of the `for src, tgt in zip(...)` loop of
`calculate_error_rates`: strip, accumulate the sentence error, whitespace-split,
then accumulate the word error and the five special error categories.
The `uppercase` and `digits` categories are called with `charset=None` in the
source; the empty list stands for the unused argument. -/
def tallyLine (config : Config) (acc : Tallies) (pair : String × String) : Tallies :=
  let src0 := pyStrip pair.1
  let tgt0 := pyStrip pair.2
  let src := pySplit src0
  let tgt := pySplit tgt0
  let w := count_word_errors src tgt
  let c := count_special_errors src tgt ("copy_chars") (setOfChars config.copy_chars)
  let u := count_special_errors src tgt ("uppercase") []
  let g := count_special_errors src tgt ("digits") []
  let p := count_special_errors src tgt ("punctuation") (setOfChars config.punctuation)
  let y := count_special_errors src tgt ("symbols") (pySplit config.symbols)
  { sents := acc.sents + 1
    sent_errors := acc.sent_errors + sentence_error src0 tgt0
    words := acc.words + w.2
    word_errors := acc.word_errors + w.1
    copy_words := acc.copy_words + c.2
    copy_errors := acc.copy_errors + c.1
    upper_words := acc.upper_words + u.2
    upper_errors := acc.upper_errors + u.1
    digit_words := acc.digit_words + g.2
    digit_errors := acc.digit_errors + g.1
    punct_words := acc.punct_words + p.2
    punct_errors := acc.punct_errors + p.1
    symbol_words := acc.symbol_words + y.2
    symbol_errors := acc.symbol_errors + y.1 }

/-- The function `calculate_error_rates` of `src/eval/edit_distance.py`, with the
two files given as their lists of lines (`zip` pairs the lines and stops at the
shorter file). The seven records are returned in the fixed source order. -/
def calculate_error_rates (source_lines target_lines : List String)
    (config : Config) : List (String × (Int × Int × Rat)) :=
  let final := (source_lines.zip target_lines).foldl (tallyLine config) initTallies
  [(("Sentence"), error_rate (final.sent_errors : Int) (final.sents : Int)),
   (("Word"), error_rate (final.word_errors : Int) (final.words : Int)),
   (("Copy Word"), error_rate (final.copy_errors : Int) (final.copy_words : Int)),
   (("Uppercase Word"), error_rate (final.upper_errors : Int) (final.upper_words : Int)),
   (("Digit"), error_rate (final.digit_errors : Int) (final.digit_words : Int)),
   (("Punctuation"), error_rate (final.punct_errors : Int) (final.punct_words : Int)),
   (("Symbol"), error_rate (final.symbol_errors : Int) (final.symbol_words : Int))]

/-- Python `str.center(width)` as implemented by CPython: no change when the
string is at least `width` long, otherwise pad with spaces, the left padding
being `marg // 2 + (marg & width & 1)`. -/
def pyCenter (str0 : String) (width : Nat) : String :=
  if width ≤ str0.length then str0
  else
    let marg := width - str0.length
    let left := marg / 2 + (marg &&& width &&& 1)
    String.mk (List.replicate left ' ') ++ str0 ++
      String.mk (List.replicate (marg - left) ' ')

/-- Body of the `for code in edit_operations(...)` loop of `get_alignment` in
`src/eval/edit_distance.py`. The Python variables `s` and `t` survive an
`IndexError` with their previous values; `sPrev`/`tPrev` carry those values, and
`none` models a variable that has never been bound, so that reading it at the
width computation would raise `NameError`, modelled by returning `none`. The
cursor updates compare against the uppercased code exactly as the source does
(for `equal` the code has been replaced by a blank, which is neither `D` nor
`I`, so both cursors advance). -/
def getAlignmentLoop (source target : List String) :
    List Char → Nat → Nat → Option String → Option String →
    Option (List String × List String × List String × List String)
  | [], _, _, _, _ => some ([], [], [], [])
  | code :: rest, i, j, sPrev, tPrev =>
    let code0 := code.toUpper
    let sTry : Option String :=
      if h : i < source.length then some (source.get ⟨i, h⟩) else sPrev
    let tTry : Option String :=
      if h : j < target.length then some (target.get ⟨j, h⟩) else tPrev
    let sVal := if code0 = 'I' then some starWord else sTry
    let tVal := if code0 = 'D' then some starWord else tTry
    let codeStr : String := if code0 = 'E' then blankWord else code0.toString
    match sVal, tVal with
    | some sCell, some tCell =>
      let width := max (max sCell.length tCell.length) codeStr.length
      match getAlignmentLoop source target rest
          (if code0 = 'I' then i else i + 1)
          (if code0 = 'D' then j else j + 1) sVal tVal with
      | some rows =>
        some (pyCenter sCell width :: rows.1, pyCenter barStr width :: rows.2.1,
          pyCenter tCell width :: rows.2.2.1, pyCenter codeStr width :: rows.2.2.2)
      | none => none
    | _, _ => none

/-- The function `get_alignment` of `src/eval/edit_distance.py`; the four rows
are accumulated front to back, and `none` models the `NameError` that an unbound
cell variable would raise. -/
def get_alignment (source target : List String) :
    Option (List String × List String × List String × List String) :=
  getAlignmentLoop source target (edit_operations source target) 0 0 none none

/-- Number of operations that advance the source cursor (everything except
`insert`). -/
def srcAdv (ops : List Char) : Nat := ops.countP (fun c => c != 'i')

/-- Number of operations that advance the target cursor (everything except
`delete`). -/
def tgtAdv (ops : List Char) : Nat := ops.countP (fun c => c != 'd')

/-- Number of error operations: `delete`, `insert` or `substitute`. -/
def countDIS (ops : List Char) : Nat :=
  ops.countP (fun c => c == 'd' || c == 'i' || c == 's')

/-- Replay of an operation sequence with the two cursors, checking that the
source cursor is in range at every operation except `insert` and the target
cursor at every operation except `delete` (claim C10's safety condition). -/
def replayOK (n m : Nat) : Nat → Nat → List Char → Bool
  | _, _, [] => true
  | i, j, code :: rest =>
    if code = 'd' then decide (i < n) && replayOK n m (i+1) j rest
    else if code = 'i' then decide (j < m) && replayOK n m i (j+1) rest
    else decide (i < n) && decide (j < m) && replayOK n m (i+1) (j+1) rest

/-- Modelled from the spec wording of section 4.6 for claim C7: one column
`(source cell, target cell, code cell)` per operation; `delete` renders the
target cell as a star and advances only the source cursor, `insert` renders the
source cell as a star and advances only the target cursor, `equal` renders the
code cell blank and advances both, `substitute` shows both tokens and advances
both. -/
def specColumns (source target : List String) :
    List Char → Nat → Nat → List (String × String × String)
  | [], _, _ => []
  | code :: rest, i, j =>
    if code = 'd' then
      (source.getD i emptyWord, starWord, String.singleton 'D') ::
        specColumns source target rest (i+1) j
    else if code = 'i' then
      (starWord, target.getD j emptyWord, String.singleton 'I') ::
        specColumns source target rest i (j+1)
    else if code = 'e' then
      (source.getD i emptyWord, target.getD j emptyWord, blankWord) ::
        specColumns source target rest (i+1) (j+1)
    else
      (source.getD i emptyWord, target.getD j emptyWord, String.singleton 'S') ::
        specColumns source target rest (i+1) (j+1)

/-- The width of an alignment column: the maximum width among the column's four
entries (source cell, bar, target cell, code cell), as claim C7 states it. -/
def colWidth (c : String × String × String) : Nat :=
  max (max (max c.1.length barStr.length) c.2.1.length) c.2.2.length

/-- The four alignment rows obtained by centering every entry of every column to
that column's width. -/
def rowsOfCols (cols : List (String × String × String)) :
    List String × List String × List String × List String :=
  (cols.map (fun c => pyCenter c.1 (colWidth c)),
   cols.map (fun c => pyCenter barStr (colWidth c)),
   cols.map (fun c => pyCenter c.2.1 (colWidth c)),
   cols.map (fun c => pyCenter c.2.2 (colWidth c)))

theorem levCell_zero_zero (s t : List String) : levCell s t 0 0 = 0 := by
  simp [levCell]

theorem levCell_succ_zero (s t : List String) (i : Nat) :
    levCell s t (i+1) 0 = levCell s t i 0 + 1 := by
  simp [levCell]

theorem levCell_zero_succ (s t : List String) (j : Nat) :
    levCell s t 0 (j+1) = levCell s t 0 j + 1 := by
  simp [levCell]

theorem levCell_succ_succ (s t : List String) (i j : Nat) :
    levCell s t (i+1) (j+1) =
      min (levCell s t i (j+1) + 1)
        (min (levCell s t (i+1) j + 1)
          (levCell s t i j + subCost (s.getD i emptyWord) (t.getD j emptyWord))) := by
  simp [levCell]

theorem levCell_col0 (s t : List String) : ∀ i, levCell s t i 0 = i := by
  intro i
  induction i with
  | zero => simp [levCell]
  | succ i ih => rw [levCell_succ_zero, ih]

theorem levCell_row0 (s t : List String) : ∀ j, levCell s t 0 j = j := by
  intro j
  induction j with
  | zero => simp [levCell]
  | succ j ih => rw [levCell_zero_succ, ih]

theorem lev_matrix_get (source target : List String) (i j : Nat)
    (hi : i ≤ source.length) (hj : j ≤ target.length) :
    ((levenshtein_distance source target).getD i []).getD j 0 =
      levCell source target i j := by
  have hi' : i < source.length + 1 := Nat.lt_succ_of_le hi
  have hj' : j < target.length + 1 := Nat.lt_succ_of_le hj
  simp [levenshtein_distance, List.getD, hi', hj']

/-- C1: `levenshtein_distance` returns an `(N+1) x (M+1)` matrix (of `Nat`s, hence
of non-negative integers) in which cell `(0,0)` is `0`, row 0 and column 0 are
strictly increasing by 1 (so `d[N][0] = N` and `d[0][M] = M`), and every interior
cell `(i,j)` with `i, j ≥ 1` equals
`min(d[i-1][j] + 1, d[i][j-1] + 1, d[i-1][j-1] + (0 if source[i-1] = target[j-1] else 1))`,
token equality being exact string equality. -/
theorem C1_levenshtein_matrix (source target : List String) :
    (levenshtein_distance source target).length = source.length + 1
    ∧ (∀ row ∈ levenshtein_distance source target, row.length = target.length + 1)
    ∧ (((levenshtein_distance source target).getD 0 []).getD 0 0 = 0)
    ∧ (∀ i, i < source.length →
        ((levenshtein_distance source target).getD (i+1) []).getD 0 0 =
          ((levenshtein_distance source target).getD i []).getD 0 0 + 1)
    ∧ (∀ j, j < target.length →
        ((levenshtein_distance source target).getD 0 []).getD (j+1) 0 =
          ((levenshtein_distance source target).getD 0 []).getD j 0 + 1)
    ∧ (((levenshtein_distance source target).getD source.length []).getD 0 0 =
        source.length)
    ∧ (((levenshtein_distance source target).getD 0 []).getD target.length 0 =
        target.length)
    ∧ (∀ i j, i < source.length → j < target.length →
        ((levenshtein_distance source target).getD (i+1) []).getD (j+1) 0 =
          min (((levenshtein_distance source target).getD i []).getD (j+1) 0 + 1)
            (min (((levenshtein_distance source target).getD (i+1) []).getD j 0 + 1)
              (((levenshtein_distance source target).getD i []).getD j 0 +
                if source.getD i emptyWord = target.getD j emptyWord then 0 else 1))) := by
  refine ⟨?_, ?_, ?_, ?_, ?_, ?_, ?_, ?_⟩
  · simp [levenshtein_distance]
  · intro row hrow
    simp only [levenshtein_distance, List.mem_map] at hrow
    obtain ⟨i, _, rfl⟩ := hrow
    simp
  · rw [lev_matrix_get source target 0 0 (Nat.zero_le _) (Nat.zero_le _)]
    exact levCell_zero_zero source target
  · intro i hi
    rw [lev_matrix_get source target (i+1) 0 (Nat.succ_le_of_lt hi) (Nat.zero_le _),
      lev_matrix_get source target i 0 (Nat.le_of_lt hi) (Nat.zero_le _)]
    exact levCell_succ_zero source target i
  · intro j hj
    rw [lev_matrix_get source target 0 (j+1) (Nat.zero_le _) (Nat.succ_le_of_lt hj),
      lev_matrix_get source target 0 j (Nat.zero_le _) (Nat.le_of_lt hj)]
    exact levCell_zero_succ source target j
  · rw [lev_matrix_get source target source.length 0 (Nat.le_refl _) (Nat.zero_le _)]
    exact levCell_col0 source target source.length
  · rw [lev_matrix_get source target 0 target.length (Nat.zero_le _) (Nat.le_refl _)]
    exact levCell_row0 source target target.length
  · intro i j hi hj
    rw [lev_matrix_get source target (i+1) (j+1) (Nat.succ_le_of_lt hi) (Nat.succ_le_of_lt hj),
      lev_matrix_get source target i (j+1) (Nat.le_of_lt hi) (Nat.succ_le_of_lt hj),
      lev_matrix_get source target (i+1) j (Nat.succ_le_of_lt hi) (Nat.le_of_lt hj),
      lev_matrix_get source target i j (Nat.le_of_lt hi) (Nat.le_of_lt hj),
      levCell_succ_succ]
    have : subCost (source.getD i emptyWord) (target.getD j emptyWord) =
        if source.getD i emptyWord = target.getD j emptyWord then 0 else 1 := by
      by_cases h : source.getD i emptyWord = target.getD j emptyWord <;>
        simp [subCost, h]
    rw [this]

/-- Witness for C1: the interior recurrence instantiated on concrete sequences. -/
theorem C1_witness :
    ((levenshtein_distance [String.singleton 'a', String.singleton 'b']
        [String.singleton 'a']).getD 1 []).getD 1 0 =
      min (((levenshtein_distance [String.singleton 'a', String.singleton 'b']
        [String.singleton 'a']).getD 0 []).getD 1 0 + 1)
        (min (((levenshtein_distance [String.singleton 'a', String.singleton 'b']
          [String.singleton 'a']).getD 1 []).getD 0 0 + 1)
          (((levenshtein_distance [String.singleton 'a', String.singleton 'b']
            [String.singleton 'a']).getD 0 []).getD 0 0 +
            if ([String.singleton 'a', String.singleton 'b'] : List String).getD 0 emptyWord =
                ([String.singleton 'a'] : List String).getD 0 emptyWord
            then 0 else 1)) :=
  (C1_levenshtein_matrix [String.singleton 'a', String.singleton 'b']
    [String.singleton 'a']).2.2.2.2.2.2.2 0 0 (by decide) (by decide)

theorem editStep_row0 (s t : List String) (c : Nat) :
    editStep s t 0 (c+1) = ('i', 0, c) := by
  simp only [editStep, Nat.add_sub_cancel, levCell_row0, Nat.zero_sub, ne_eq,
    not_true_eq_false, false_and, if_false, if_true, Prod.fst, Prod.snd]
  rw [if_neg (by omega), if_neg (by omega)]

theorem editStep_col0 (s t : List String) (r : Nat) :
    editStep s t (r+1) 0 = ('d', r, 0) := by
  simp only [editStep, Nat.add_sub_cancel, levCell_col0, Nat.zero_sub, ne_eq,
    not_false_eq_true, not_true_eq_false, and_false, if_false, if_true, Prod.fst, Prod.snd,
    if_neg (Nat.succ_ne_zero r)]
  rw [if_neg (by omega), if_pos (by omega)]

theorem editStep_interior (s t : List String) (r c : Nat) :
    editStep s t (r+1) (c+1) =
      if levCell s t r c ≤ levCell s t r (c+1) ∧ levCell s t r c ≤ levCell s t (r+1) c then
        ((if levCell s t r c = levCell s t (r+1) (c+1) then 'e' else 's'), r, c)
      else if levCell s t r (c+1) ≤ levCell s t (r+1) c then ('d', r, c+1)
      else ('i', r+1, c) := by
  simp only [editStep, Nat.add_sub_cancel, ne_eq, Nat.succ_ne_zero,
    not_false_eq_true, and_self, if_true, Prod.fst, Prod.snd]
theorem editOpsLoop_acc (s t : List String) :
    ∀ fuel row col codes,
      editOpsLoop s t fuel row col codes = editOpsLoop s t fuel row col [] ++ codes := by
  intro fuel
  induction fuel with
  | zero => intro row col codes; simp [editOpsLoop]
  | succ fuel ih =>
    intro row col codes
    by_cases h0 : row = 0 ∧ col = 0
    · simp [editOpsLoop, h0]
    · simp only [editOpsLoop, if_neg h0]
      rw [ih _ _ ((editStep s t row col).1 :: codes), ih _ _ [(editStep s t row col).1]]
      simp

theorem editStep_decreases (s t : List String) (row col : Nat) (h : ¬(row = 0 ∧ col = 0)) :
    (editStep s t row col).2.1 + (editStep s t row col).2.2 < row + col := by
  match row, col with
  | 0, 0 => exact absurd ⟨rfl, rfl⟩ h
  | 0, c+1 => rw [editStep_row0]; dsimp only; omega
  | r+1, 0 => rw [editStep_col0]; dsimp only; omega
  | r+1, c+1 =>
    rw [editStep_interior]
    split
    · dsimp only; omega
    · split <;> (dsimp only; omega)

theorem editOpsLoop_fuel (s t : List String) :
    ∀ k row col f, row + col ≤ k → row + col < f →
      editOpsLoop s t f row col [] = walkOps s t row col := by
  intro k
  induction k with
  | zero =>
    intro row col f hk hf
    have hr : row = 0 := by omega
    have hc : col = 0 := by omega
    subst hr; subst hc
    match f, hf with
    | f+1, _ => simp [editOpsLoop, walkOps]
  | succ k ih =>
    intro row col f hk hf
    by_cases h0 : row = 0 ∧ col = 0
    · obtain ⟨hr, hc⟩ := h0; subst hr; subst hc
      match f, hf with
      | f+1, _ => simp [editOpsLoop, walkOps]
    · match f, hf with
      | f+1, _ =>
        have hdec := editStep_decreases s t row col h0
        simp only [editOpsLoop, if_neg h0]
        rw [editOpsLoop_acc s t f _ _ [(editStep s t row col).1]]
        rw [ih _ _ f (by omega) (by omega)]
        have hwalk : walkOps s t row col =
            walkOps s t (editStep s t row col).2.1 (editStep s t row col).2.2 ++
              [(editStep s t row col).1] := by
          show editOpsLoop s t (row + col + 1) row col [] = _
          simp only [editOpsLoop, if_neg h0]
          rw [editOpsLoop_acc s t (row + col) _ _ [(editStep s t row col).1]]
          rw [ih _ _ (row + col) (by omega) (by omega)]
        rw [hwalk]

theorem walkOps_zero (s t : List String) : walkOps s t 0 0 = [] := by
  simp [walkOps, editOpsLoop]

theorem walkOps_step (s t : List String) (row col : Nat) (h : ¬(row = 0 ∧ col = 0)) :
    walkOps s t row col =
      walkOps s t (editStep s t row col).2.1 (editStep s t row col).2.2 ++
        [(editStep s t row col).1] := by
  show editOpsLoop s t (row + col + 1) row col [] = _
  simp only [editOpsLoop, if_neg h]
  rw [editOpsLoop_acc s t (row + col) _ _ [(editStep s t row col).1]]
  rw [editOpsLoop_fuel s t (row + col) _ _ (row + col)
    (by have := editStep_decreases s t row col h; omega)
    (by have := editStep_decreases s t row col h; omega)]

theorem walkOps_row0 (s t : List String) (c : Nat) :
    walkOps s t 0 (c+1) = walkOps s t 0 c ++ ['i'] := by
  rw [walkOps_step s t 0 (c+1) (by simp), editStep_row0]

theorem walkOps_col0 (s t : List String) (r : Nat) :
    walkOps s t (r+1) 0 = walkOps s t r 0 ++ ['d'] := by
  rw [walkOps_step s t (r+1) 0 (by simp), editStep_col0]

theorem walkOps_diag (s t : List String) (r c : Nat)
    (h1 : levCell s t r c ≤ levCell s t r (c+1))
    (h2 : levCell s t r c ≤ levCell s t (r+1) c) :
    walkOps s t (r+1) (c+1) =
      walkOps s t r c ++
        [if levCell s t r c = levCell s t (r+1) (c+1) then 'e' else 's'] := by
  rw [walkOps_step s t (r+1) (c+1) (by simp), editStep_interior,
    if_pos ⟨h1, h2⟩]

theorem walkOps_del (s t : List String) (r c : Nat)
    (h1 : ¬(levCell s t r c ≤ levCell s t r (c+1) ∧ levCell s t r c ≤ levCell s t (r+1) c))
    (h2 : levCell s t r (c+1) ≤ levCell s t (r+1) c) :
    walkOps s t (r+1) (c+1) = walkOps s t r (c+1) ++ ['d'] := by
  rw [walkOps_step s t (r+1) (c+1) (by simp), editStep_interior,
    if_neg h1, if_pos h2]

theorem walkOps_ins (s t : List String) (r c : Nat)
    (h1 : ¬(levCell s t r c ≤ levCell s t r (c+1) ∧ levCell s t r c ≤ levCell s t (r+1) c))
    (h2 : ¬(levCell s t r (c+1) ≤ levCell s t (r+1) c)) :
    walkOps s t (r+1) (c+1) = walkOps s t (r+1) c ++ ['i'] := by
  rw [walkOps_step s t (r+1) (c+1) (by simp), editStep_interior,
    if_neg h1, if_neg h2]

theorem edit_operations_eq_walkOps (s t : List String) :
    edit_operations s t = walkOps s t s.length t.length := rfl
theorem srcAdv_nil : srcAdv [] = 0 := rfl

theorem tgtAdv_nil : tgtAdv [] = 0 := rfl

theorem countDIS_nil : countDIS [] = 0 := rfl

theorem srcAdv_append_one (ops : List Char) (x : Char) :
    srcAdv (ops ++ [x]) = srcAdv ops + (if x = 'i' then 0 else 1) := by
  simp only [srcAdv, List.countP_append, List.countP_cons, List.countP_nil]
  by_cases h : x = 'i' <;> simp [h]

theorem tgtAdv_append_one (ops : List Char) (x : Char) :
    tgtAdv (ops ++ [x]) = tgtAdv ops + (if x = 'd' then 0 else 1) := by
  simp only [tgtAdv, List.countP_append, List.countP_cons, List.countP_nil]
  by_cases h : x = 'd' <;> simp [h]

theorem countDIS_append_one (ops : List Char) (x : Char) :
    countDIS (ops ++ [x]) = countDIS ops + (if x = 'd' ∨ x = 'i' ∨ x = 's' then 1 else 0) := by
  simp only [countDIS, List.countP_append, List.countP_cons, List.countP_nil]
  by_cases h : x = 'd' ∨ x = 'i' ∨ x = 's'
  · rcases h with h | h | h <;> simp [h]
  · push_neg at h
    have hb : (x == 'd' || x == 'i' || x == 's') = false := by
      simp [h.1, h.2.1, h.2.2]
    simp [hb, h.1, h.2.1, h.2.2]

theorem walkOps_adv (s t : List String) :
    ∀ k row col, row + col ≤ k →
      srcAdv (walkOps s t row col) = row ∧ tgtAdv (walkOps s t row col) = col := by
  intro k
  induction k with
  | zero =>
    intro row col h
    have hr : row = 0 := by omega
    have hc : col = 0 := by omega
    subst hr; subst hc
    simp [walkOps_zero, srcAdv_nil, tgtAdv_nil]
  | succ k ih =>
    intro row col h
    match row, col with
    | 0, 0 => simp [walkOps_zero, srcAdv_nil, tgtAdv_nil]
    | 0, c+1 =>
      obtain ⟨ih1, ih2⟩ := ih 0 c (by omega)
      rw [walkOps_row0, srcAdv_append_one, tgtAdv_append_one, ih1, ih2]
      simp
    | r+1, 0 =>
      obtain ⟨ih1, ih2⟩ := ih r 0 (by omega)
      rw [walkOps_col0, srcAdv_append_one, tgtAdv_append_one, ih1, ih2]
      simp
    | r+1, c+1 =>
      by_cases h1 : levCell s t r c ≤ levCell s t r (c+1) ∧
          levCell s t r c ≤ levCell s t (r+1) c
      · obtain ⟨ih1, ih2⟩ := ih r c (by omega)
        rw [walkOps_diag s t r c h1.1 h1.2, srcAdv_append_one, tgtAdv_append_one,
          ih1, ih2]
        by_cases he : levCell s t r c = levCell s t (r+1) (c+1) <;> simp [he]
      · by_cases h2 : levCell s t r (c+1) ≤ levCell s t (r+1) c
        · obtain ⟨ih1, ih2⟩ := ih r (c+1) (by omega)
          rw [walkOps_del s t r c h1 h2, srcAdv_append_one, tgtAdv_append_one,
            ih1, ih2]
          simp
        · obtain ⟨ih1, ih2⟩ := ih (r+1) c (by omega)
          rw [walkOps_ins s t r c h1 h2, srcAdv_append_one, tgtAdv_append_one,
            ih1, ih2]
          simp
theorem subCost_le_one (a b : String) : subCost a b ≤ 1 := by
  unfold subCost; split <;> omega

theorem countDIS_walkOps (s t : List String) :
    ∀ k row col, row + col ≤ k →
      countDIS (walkOps s t row col) = levCell s t row col := by
  intro k
  induction k with
  | zero =>
    intro row col h
    have hr : row = 0 := by omega
    have hc : col = 0 := by omega
    subst hr; subst hc
    simp [walkOps_zero, countDIS_nil, levCell_zero_zero]
  | succ k ih =>
    intro row col h
    match row, col with
    | 0, 0 => simp [walkOps_zero, countDIS_nil, levCell_zero_zero]
    | 0, c+1 =>
      rw [walkOps_row0, countDIS_append_one, ih 0 c (by omega), levCell_row0,
        levCell_row0]
      simp
    | r+1, 0 =>
      rw [walkOps_col0, countDIS_append_one, ih r 0 (by omega), levCell_col0,
        levCell_col0]
      simp
    | r+1, c+1 =>
      have hcur := levCell_succ_succ s t r c
      have hsc := subCost_le_one (s.getD r emptyWord) (t.getD c emptyWord)
      by_cases h1 : levCell s t r c ≤ levCell s t r (c+1) ∧
          levCell s t r c ≤ levCell s t (r+1) c
      · rw [walkOps_diag s t r c h1.1 h1.2, countDIS_append_one, ih r c (by omega)]
        by_cases he : levCell s t r c = levCell s t (r+1) (c+1)
        · simp [he]
        · rw [if_neg he]
          have hle : levCell s t (r+1) (c+1) ≤
              levCell s t r c + subCost (s.getD r emptyWord) (t.getD c emptyWord) := by
            rw [hcur]
            exact le_trans (min_le_right _ _) (min_le_right _ _)
          have hge : levCell s t r c ≤ levCell s t (r+1) (c+1) := by
            rw [hcur]
            exact le_min (by omega) (le_min (by omega) (Nat.le_add_right _ _))
          simp only [reduceCtorEq, or_self, if_false]
          simp
          omega
      · by_cases h2 : levCell s t r (c+1) ≤ levCell s t (r+1) c
        · rw [walkOps_del s t r c h1 h2, countDIS_append_one, ih r (c+1) (by omega)]
          push_neg at h1
          have hD : levCell s t r (c+1) + 1 ≤
              levCell s t r c + subCost (s.getD r emptyWord) (t.getD c emptyWord) := by
            by_cases hDT : levCell s t r c ≤ levCell s t r (c+1)
            · have := h1 hDT; omega
            · omega
          have h6 : levCell s t (r+1) (c+1) = levCell s t r (c+1) + 1 := by
            rw [hcur, min_eq_left (le_min (by omega) hD)]
          simp
          omega
        · rw [walkOps_ins s t r c h1 h2, countDIS_append_one, ih (r+1) c (by omega)]
          push_neg at h1
          push_neg at h2
          have hD : levCell s t (r+1) c + 1 ≤
              levCell s t r c + subCost (s.getD r emptyWord) (t.getD c emptyWord) := by
            by_cases hDT : levCell s t r c ≤ levCell s t r (c+1)
            · have := h1 hDT; omega
            · omega
          have h6 : levCell s t (r+1) (c+1) = levCell s t (r+1) c + 1 := by
            rw [hcur, min_eq_left hD, min_eq_right (by omega)]
          simp
          omega
theorem walkOps_chars (s t : List String) :
    ∀ k row col, row + col ≤ k → ∀ x ∈ walkOps s t row col,
      x = 'e' ∨ x = 's' ∨ x = 'd' ∨ x = 'i' := by
  intro k
  induction k with
  | zero =>
    intro row col h x hx
    have hr : row = 0 := by omega
    have hc : col = 0 := by omega
    subst hr; subst hc
    rw [walkOps_zero] at hx
    simp at hx
  | succ k ih =>
    intro row col h x hx
    match row, col with
    | 0, 0 => rw [walkOps_zero] at hx; simp at hx
    | 0, c+1 =>
      rw [walkOps_row0] at hx
      rcases List.mem_append.1 hx with hx | hx
      · exact ih 0 c (by omega) x hx
      · simp at hx; simp [hx]
    | r+1, 0 =>
      rw [walkOps_col0] at hx
      rcases List.mem_append.1 hx with hx | hx
      · exact ih r 0 (by omega) x hx
      · simp at hx; simp [hx]
    | r+1, c+1 =>
      by_cases h1 : levCell s t r c ≤ levCell s t r (c+1) ∧
          levCell s t r c ≤ levCell s t (r+1) c
      · rw [walkOps_diag s t r c h1.1 h1.2] at hx
        rcases List.mem_append.1 hx with hx | hx
        · exact ih r c (by omega) x hx
        · simp at hx
          by_cases he : levCell s t r c = levCell s t (r+1) (c+1)
          · rw [if_pos he] at hx; simp [hx]
          · rw [if_neg he] at hx; simp [hx]
      · by_cases h2 : levCell s t r (c+1) ≤ levCell s t (r+1) c
        · rw [walkOps_del s t r c h1 h2] at hx
          rcases List.mem_append.1 hx with hx | hx
          · exact ih r (c+1) (by omega) x hx
          · simp at hx; simp [hx]
        · rw [walkOps_ins s t r c h1 h2] at hx
          rcases List.mem_append.1 hx with hx | hx
          · exact ih (r+1) c (by omega) x hx
          · simp at hx; simp [hx]

theorem levCell_self (a : List String) : ∀ i, levCell a a i i = 0 := by
  intro i
  induction i with
  | zero => simp [levCell]
  | succ i ih =>
    rw [levCell_succ_succ, ih]
    simp [subCost]

theorem walkOps_self (a : List String) : ∀ i, walkOps a a i i = List.replicate i 'e' := by
  intro i
  induction i with
  | zero => simp [walkOps_zero]
  | succ i ih =>
    rw [walkOps_diag a a i i (by rw [levCell_self]; exact Nat.zero_le _)
      (by rw [levCell_self]; exact Nat.zero_le _)]
    rw [ih, levCell_self, levCell_self]
    simp [List.replicate_succ']
theorem bsw_zero (s t : List String) (f : Nat) :
    backtraceSpecWalk s t (f+1) 0 0 = [] := by
  simp [backtraceSpecWalk]

theorem bsw_row0 (s t : List String) (f c : Nat) :
    backtraceSpecWalk s t (f+1) 0 (c+1) = 'i' :: backtraceSpecWalk s t f 0 c := by
  simp only [backtraceSpecWalk, Nat.add_sub_cancel, levCell_row0, Nat.zero_sub, ne_eq,
    not_true_eq_false, false_and, if_false, if_true, Prod.fst, Prod.snd]
  rw [if_neg (by simp), if_neg (by omega), if_neg (by omega)]

theorem bsw_col0 (s t : List String) (f r : Nat) :
    backtraceSpecWalk s t (f+1) (r+1) 0 = 'd' :: backtraceSpecWalk s t f r 0 := by
  simp only [backtraceSpecWalk, Nat.add_sub_cancel, levCell_col0, Nat.zero_sub, ne_eq,
    not_false_eq_true, not_true_eq_false, and_false, if_false, if_true, Prod.fst, Prod.snd,
    if_neg (Nat.succ_ne_zero r)]
  rw [if_neg (by simp), if_neg (by omega), if_pos (by omega)]

theorem bsw_interior (s t : List String) (f r c : Nat) :
    backtraceSpecWalk s t (f+1) (r+1) (c+1) =
      if levCell s t r c ≤ levCell s t r (c+1) ∧ levCell s t r c ≤ levCell s t (r+1) c then
        (if levCell s t r c = levCell s t (r+1) (c+1) then 'e' else 's') ::
          backtraceSpecWalk s t f r c
      else if levCell s t r (c+1) ≤ levCell s t (r+1) c then
        'd' :: backtraceSpecWalk s t f r (c+1)
      else 'i' :: backtraceSpecWalk s t f (r+1) c := by
  simp only [backtraceSpecWalk, Nat.add_sub_cancel, ne_eq, Nat.succ_ne_zero,
    not_false_eq_true, and_self, if_true, Prod.fst, Prod.snd]
  rw [if_neg (by simp)]

theorem bsw_reverse (s t : List String) :
    ∀ k row col f, row + col ≤ k → row + col < f →
      (backtraceSpecWalk s t f row col).reverse = walkOps s t row col := by
  intro k
  induction k with
  | zero =>
    intro row col f hk hf
    have hr : row = 0 := by omega
    have hc : col = 0 := by omega
    subst hr; subst hc
    match f, hf with
    | f+1, _ => rw [bsw_zero, walkOps_zero]; rfl
  | succ k ih =>
    intro row col f hk hf
    match row, col with
    | 0, 0 =>
      match f, hf with
      | f+1, _ => rw [bsw_zero, walkOps_zero]; rfl
    | 0, c+1 =>
      match f, hf with
      | f+1, _ =>
        rw [bsw_row0, walkOps_row0, List.reverse_cons, ih 0 c f (by omega) (by omega)]
    | r+1, 0 =>
      match f, hf with
      | f+1, _ =>
        rw [bsw_col0, walkOps_col0, List.reverse_cons, ih r 0 f (by omega) (by omega)]
    | r+1, c+1 =>
      match f, hf with
      | f+1, _ =>
        rw [bsw_interior]
        by_cases h1 : levCell s t r c ≤ levCell s t r (c+1) ∧
            levCell s t r c ≤ levCell s t (r+1) c
        · rw [if_pos h1, walkOps_diag s t r c h1.1 h1.2, List.reverse_cons,
            ih r c f (by omega) (by omega)]
        · rw [if_neg h1]
          by_cases h2 : levCell s t r (c+1) ≤ levCell s t (r+1) c
          · rw [if_pos h2, walkOps_del s t r c h1 h2, List.reverse_cons,
              ih r (c+1) f (by omega) (by omega)]
          · rw [if_neg h2, walkOps_ins s t r c h1 h2, List.reverse_cons,
              ih (r+1) c f (by omega) (by omega)]

theorem foldl_errors (ops : List Char) : ∀ acc : Nat,
    ops.foldl (fun error_count code =>
      if code = 'd' ∨ code = 'i' ∨ code = 's' then error_count + 1
      else error_count) acc = acc + countDIS ops := by
  induction ops with
  | nil => intro acc; simp [countDIS_nil]
  | cons cHead rest ih =>
    intro acc
    simp only [List.foldl_cons]
    rw [ih]
    have hsplit : countDIS (cHead :: rest) =
        countDIS rest + (if cHead = 'd' ∨ cHead = 'i' ∨ cHead = 's' then 1 else 0) := by
      simp only [countDIS, List.countP_cons]
      by_cases hc : cHead = 'd' ∨ cHead = 'i' ∨ cHead = 's'
      · rcases hc with h | h | h <;> simp [h]
      · push_neg at hc
        simp [hc.1, hc.2.1, hc.2.2]
    rw [hsplit]
    by_cases hc : cHead = 'd' ∨ cHead = 'i' ∨ cHead = 's' <;> simp [hc] <;> omega

theorem count_word_errors_eq (source target : List String) :
    count_word_errors source target =
      (countDIS (edit_operations source target), source.length) := by
  unfold count_word_errors
  rw [foldl_errors]
  simp
theorem countDIS_add_count_e (ops : List Char)
    (h : ∀ x ∈ ops, x = 'e' ∨ x = 's' ∨ x = 'd' ∨ x = 'i') :
    countDIS ops + ops.count 'e' = ops.length := by
  induction ops with
  | nil => simp [countDIS_nil]
  | cons cHead rest ih =>
    have h1 := h cHead (by simp)
    have ih' := ih (fun x hx => h x (by simp [hx]))
    simp only [countDIS, List.countP_cons, List.count_cons, List.length_cons] at *
    rcases h1 with h1 | h1 | h1 | h1 <;> subst h1 <;> simp <;> omega

theorem count_i_add_srcAdv (ops : List Char) :
    ops.count 'i' + srcAdv ops = ops.length := by
  induction ops with
  | nil => simp [srcAdv_nil]
  | cons cHead rest ih =>
    simp only [srcAdv, List.countP_cons, List.count_cons, List.length_cons] at *
    by_cases h : cHead = 'i' <;> simp [h] <;> omega

theorem count_d_add_tgtAdv (ops : List Char) :
    ops.count 'd' + tgtAdv ops = ops.length := by
  induction ops with
  | nil => simp [tgtAdv_nil]
  | cons cHead rest ih =>
    simp only [tgtAdv, List.countP_cons, List.count_cons, List.length_cons] at *
    by_cases h : cHead = 'd' <;> simp [h] <;> omega

theorem count_i_le_tgtAdv (ops : List Char) : ops.count 'i' ≤ tgtAdv ops := by
  induction ops with
  | nil => simp [tgtAdv_nil]
  | cons cHead rest ih =>
    simp only [tgtAdv, List.countP_cons, List.count_cons] at *
    by_cases h : cHead = 'i' <;> simp [h] <;> omega

/-- C2: `edit_operations` walks the matrix from `(N, M)` to `(0, 0)`, comparing at
each step the diagonal, above and left predecessor costs (with the
boundary-adjusted substitutes at row 0 / column 0), moving to the minimum with
ties broken diagonal first, then above (emitting delete), then left (emitting
insert), emitting `equal` on a diagonal move exactly when the diagonal
predecessor cost equals the current cell's cost (else `substitute`), and the
returned operation sequence is the source-index-ascending (left-to-right)
reversal of the emission order. `backtraceSpecWalk` is that walk transcribed from
the spec's words, emitting codes in walk order. -/
theorem C2_backtrace_walk (source target : List String) :
    edit_operations source target =
      (backtraceSpecWalk source target (source.length + target.length + 1)
        source.length target.length).reverse := by
  rw [edit_operations_eq_walkOps]
  exact (bsw_reverse source target (source.length + target.length)
    source.length target.length (source.length + target.length + 1)
    (le_refl _) (by omega)).symm

/-- C3: `count_word_errors` returns the number of `delete`, `insert` or
`substitute` operations of `edit_operations source target` (equivalently,
everything except `equal`), paired with the length of the (possibly filtered)
source sequence, never the target length. -/
theorem C3_count_word_errors (source target : List String) :
    count_word_errors source target =
      (countDIS (edit_operations source target), source.length)
    ∧ (count_word_errors source target).1 =
        (edit_operations source target).length -
          (edit_operations source target).count 'e'
    ∧ (count_word_errors source target).2 = source.length := by
  have hchars := walkOps_chars source target (source.length + target.length)
    source.length target.length (le_refl _)
  have hsum := countDIS_add_count_e _ hchars
  rw [count_word_errors_eq, edit_operations_eq_walkOps]
  refine ⟨rfl, ?_, rfl⟩
  simp only
  omega

/-- C4: the number of non-`equal` operations produced by `edit_operations` equals
the bottom-right cell `d[N][M]` of the Levenshtein matrix, i.e. the backtrace
follows a minimum-cost path and `count_word_errors` returns exactly the
token-level Levenshtein distance; in particular `count_word_errors a a` is
`(0, len a)` and the operation sequence of `a` against itself is all `equal`. -/
theorem C4_error_count_is_distance (source target : List String) :
    (count_word_errors source target).1 =
      ((levenshtein_distance source target).getD source.length []).getD
        target.length 0
    ∧ countDIS (edit_operations source target) =
      ((levenshtein_distance source target).getD source.length []).getD
        target.length 0
    ∧ count_word_errors source source = (0, source.length)
    ∧ edit_operations source source = List.replicate source.length 'e' := by
  have hmat := lev_matrix_get source target source.length target.length
    (le_refl _) (le_refl _)
  have hcnt : countDIS (edit_operations source target) =
      levCell source target source.length target.length := by
    rw [edit_operations_eq_walkOps]
    exact countDIS_walkOps source target (source.length + target.length)
      source.length target.length (le_refl _)
  have hself : edit_operations source source = List.replicate source.length 'e' := by
    rw [edit_operations_eq_walkOps]
    exact walkOps_self source source.length
  have hcnt0 : countDIS (edit_operations source source) = 0 := by
    rw [edit_operations_eq_walkOps]
    rw [countDIS_walkOps source source (source.length + source.length)
      source.length source.length (le_refl _)]
    exact levCell_self source source.length
  refine ⟨?_, ?_, ?_, hself⟩
  · rw [count_word_errors_eq, hmat, hcnt]
  · rw [hmat, hcnt]
  · rw [count_word_errors_eq, hcnt0]

/-- C6: the operation sequence of `edit_operations a b` has length between
`max (len a) (len b)` and `len a + len b` inclusive, and the number of `insert`
operations minus the number of `delete` operations equals `len b - len a`. -/
theorem C6_backtrace_length_and_balance (a b : List String) :
    max a.length b.length ≤ (edit_operations a b).length
    ∧ (edit_operations a b).length ≤ a.length + b.length
    ∧ ((edit_operations a b).count 'i' : Int) - ((edit_operations a b).count 'd' : Int) =
        (b.length : Int) - (a.length : Int) := by
  obtain ⟨h1, h2⟩ := walkOps_adv a b (a.length + b.length) a.length b.length (le_refl _)
  rw [edit_operations_eq_walkOps]
  have e1 := count_i_add_srcAdv (walkOps a b a.length b.length)
  have e2 := count_d_add_tgtAdv (walkOps a b a.length b.length)
  have e3 := count_i_le_tgtAdv (walkOps a b a.length b.length)
  rw [h1] at e1
  rw [h2] at e2 e3
  refine ⟨Nat.max_le.mpr ⟨by omega, by omega⟩, by omega, ?_⟩
  omega
/-- C5: for category `copy_chars`, `prepare_special_error_type` keeps exactly the
order-preserving subsequence of source tokens all of whose characters lie in the
set, and the order-preserving subsequence of target tokens whose characters lie
in the set and which are members of the filtered source (not the original); for
any category name other than the five known ones both sequences pass through
unchanged. -/
theorem C5_category_filter (source target charset : List String) (error_type : String) :
    (prepare_special_error_type source target ("copy_chars") charset =
      (source.filter (fun word => word.toList.all (fun c => charset.contains c.toString)),
       target.filter (fun word =>
         word.toList.all (fun c => charset.contains c.toString) &&
           (source.filter (fun w =>
             w.toList.all (fun c => charset.contains c.toString))).contains word)))
    ∧ (prepare_special_error_type source target ("copy_chars") charset).1.Sublist source
    ∧ (prepare_special_error_type source target ("copy_chars") charset).2.Sublist target
    ∧ (error_type ≠ "copy_chars" → error_type ≠ "uppercase" → error_type ≠ "digits" →
        error_type ≠ "punctuation" → error_type ≠ "symbols" →
        prepare_special_error_type source target error_type charset = (source, target)) := by
  refine ⟨?_, ?_, ?_, ?_⟩
  · simp [prepare_special_error_type]
  · simp only [prepare_special_error_type, if_pos rfl]
    exact List.filter_sublist source
  · simp only [prepare_special_error_type, if_pos rfl]
    exact List.filter_sublist target
  · intro h1 h2 h3 h4 h5
    simp [prepare_special_error_type, h1, h2, h3, h4, h5]

/-- Witness for C5: a category name outside the five known ones passes both
sequences through unchanged. -/
theorem C5_witness :
    prepare_special_error_type [String.singleton 'x'] [String.singleton 'y']
      ("word") [String.singleton 'x'] =
      ([String.singleton 'x'], [String.singleton 'y']) :=
  (C5_category_filter [String.singleton 'x'] [String.singleton 'y']
    [String.singleton 'x'] ("word")).2.2.2 (by decide) (by decide) (by decide)
    (by decide) (by decide)

/-- Counterexample for C8: at `(1, 3)` the program computes the double
`(1/3)*100 = 4691249611844266 * 2^(-47) = 33.333333333333332149…`, which is not
`100 * 1 / 3` (the two intermediate roundings do not cancel), so the rate is not
`100 * error_count / total` exactly. -/
theorem C8_counterexample :
    error_rate 1 3 = (1, 3, (4691249611844266 : Rat) * (2 : Rat) ^ (-47 : Int))
    ∧ error_rate 1 3 ≠ (1, 3, 100 * (1 : Rat) / (3 : Rat)) := by
  have h1 : roundMantissa (1 : Int).natAbs (3 : Int).natAbs =
      (6004799503160661, -54) := by decide
  have h2 : roundMantissa (6004799503160661 * 100) 1 =
      (4691249611844266, 7) := by decide
  have hval : floatRate 1 3 = (4691249611844266 : Rat) * (2 : Rat) ^ (-47 : Int) := by
    simp only [floatRate, h1]
    rw [h2]
    norm_num
  have hrate : error_rate 1 3 =
      (1, 3, (4691249611844266 : Rat) * (2 : Rat) ^ (-47 : Int)) := by
    simp only [error_rate, if_neg (show (3 : Int) ≠ 0 by decide), hval]
  refine ⟨hrate, ?_⟩
  rw [hrate]
  simp only [ne_eq, Prod.mk.injEq, not_and]
  intro _ _
  norm_num

/-- C8 (amended): `error_rate` never divides by zero — when `total = 0` it
returns `(error_count, total, 0.0)` — and otherwise it returns
`(error_count, total, r)` where `r` is `(error_count/total)*100` evaluated in
IEEE-754 binary64 arithmetic (the division correctly rounded to nearest with
ties to even, then the product with 100 rounded likewise); `r` may differ from
the exact `100 * error_count / total`, as the counterexample at `(1, 3)`
shows. -/
theorem C8_error_rate (error_count total : Int) :
    (total = 0 → error_rate error_count total = (error_count, total, 0))
    ∧ (total ≠ 0 → error_rate error_count total =
        (error_count, total, floatRate error_count total)) := by
  constructor
  · intro h
    simp [error_rate, h]
  · intro h
    simp [error_rate, h]

/-- Witness for C8: both branches at concrete inputs. -/
theorem C8_witness :
    error_rate 1 0 = (1, 0, 0)
    ∧ error_rate 1 2 = (1, 2, floatRate 1 2) :=
  ⟨(C8_error_rate 1 0).1 rfl, (C8_error_rate 1 2).2 (by decide)⟩
theorem zip_take_take {α β : Type} :
    ∀ (l1 : List α) (l2 : List β) (k : Nat),
      (l1.take k).zip (l2.take k) = (l1.zip l2).take k := by
  intro l1
  induction l1 with
  | nil => intro l2 k; simp
  | cons a rest ih =>
    intro l2 k
    cases l2 with
    | nil => simp
    | cons b rest2 =>
      cases k with
      | zero => simp
      | succ k => simp [ih]

theorem zip_eq_zip_take {α β : Type} (l1 : List α) (l2 : List β) :
    l1.zip l2 = (l1.take (min l1.length l2.length)).zip
      (l2.take (min l1.length l2.length)) := by
  rw [zip_take_take]
  rw [List.take_of_length_le]
  rw [List.length_zip]

theorem foldl_tallyLine_sents (config : Config) :
    ∀ (l : List (String × String)) (acc : Tallies),
      (l.foldl (tallyLine config) acc).sents = acc.sents + l.length := by
  intro l
  induction l with
  | nil => intro acc; simp
  | cons p rest ih =>
    intro acc
    simp only [List.foldl_cons, List.length_cons]
    rw [ih]
    simp [tallyLine]
    omega

theorem foldl_tallyLine_sent_errors (config : Config) :
    ∀ (l : List (String × String)) (acc : Tallies),
      (l.foldl (tallyLine config) acc).sent_errors =
        acc.sent_errors + l.countP (fun pr => pyStrip pr.1 != pyStrip pr.2) := by
  intro l
  induction l with
  | nil => intro acc; simp
  | cons p rest ih =>
    intro acc
    simp only [List.foldl_cons, List.countP_cons]
    rw [ih]
    have hone : (tallyLine config acc p).sent_errors =
        acc.sent_errors + sentence_error (pyStrip p.1) (pyStrip p.2) := by
      simp [tallyLine]
    rw [hone]
    by_cases h : pyStrip p.2 = pyStrip p.1
    · simp [sentence_error, h, eq_comm]
    · have h' : ¬(pyStrip p.1 = pyStrip p.2) := fun hc => h hc.symm
      simp [sentence_error, h, h']
      omega
/-- C9: when the two files differ in line count, `calculate_error_rates` pairs
exactly `min p q` lines (`zip` truncation, no error raised for the dropped
tail), returns the same seven records as on the files truncated to the common
prefix, keeps the fixed category ordering Sentence, Word, Copy Word, Uppercase
Word, Digit, Punctuation, Symbol, and each processed pair adds 1 to the sentence
error tally exactly when the stripped lines differ. -/
theorem C9_truncation (source_lines target_lines : List String) (config : Config)
    (h : source_lines.length ≠ target_lines.length) :
    (source_lines.zip target_lines).length =
      min source_lines.length target_lines.length
    ∧ calculate_error_rates source_lines target_lines config =
        calculate_error_rates
          (source_lines.take (min source_lines.length target_lines.length))
          (target_lines.take (min source_lines.length target_lines.length)) config
    ∧ (calculate_error_rates source_lines target_lines config).map Prod.fst =
        [("Sentence"), ("Word"), ("Copy Word"), ("Uppercase Word"), ("Digit"),
          ("Punctuation"), ("Symbol")]
    ∧ ((source_lines.zip target_lines).foldl (tallyLine config) initTallies).sent_errors =
        (source_lines.zip target_lines).countP
          (fun pr => pyStrip pr.1 != pyStrip pr.2)
    ∧ ((source_lines.zip target_lines).foldl (tallyLine config) initTallies).sents =
        min source_lines.length target_lines.length := by
  refine ⟨List.length_zip source_lines target_lines, ?_, ?_, ?_, ?_⟩
  · simp only [calculate_error_rates]
    rw [zip_take_take, List.take_of_length_le]
    rw [List.length_zip]
  · simp [calculate_error_rates]
  · rw [foldl_tallyLine_sent_errors]
    simp [initTallies]
  · rw [foldl_tallyLine_sents]
    simp [initTallies, List.length_zip]
/-- Witness for C9: a one-line reference against an empty hypothesis file. -/
theorem C9_witness :
    (([String.singleton 'x'] : List String).zip ([] : List String)).length =
      min ([String.singleton 'x'] : List String).length ([] : List String).length
    ∧ calculate_error_rates [String.singleton 'x'] [] (Config.mk emptyWord emptyWord emptyWord) =
        calculate_error_rates
          (([String.singleton 'x'] : List String).take
            (min ([String.singleton 'x'] : List String).length ([] : List String).length))
          (([] : List String).take
            (min ([String.singleton 'x'] : List String).length ([] : List String).length))
          (Config.mk emptyWord emptyWord emptyWord)
    ∧ (calculate_error_rates [String.singleton 'x'] []
          (Config.mk emptyWord emptyWord emptyWord)).map Prod.fst =
        [("Sentence"), ("Word"), ("Copy Word"), ("Uppercase Word"), ("Digit"),
          ("Punctuation"), ("Symbol")]
    ∧ ((([String.singleton 'x'] : List String).zip ([] : List String)).foldl
          (tallyLine (Config.mk emptyWord emptyWord emptyWord)) initTallies).sent_errors =
        (([String.singleton 'x'] : List String).zip ([] : List String)).countP
          (fun pr => pyStrip pr.1 != pyStrip pr.2)
    ∧ ((([String.singleton 'x'] : List String).zip ([] : List String)).foldl
          (tallyLine (Config.mk emptyWord emptyWord emptyWord)) initTallies).sents =
        min ([String.singleton 'x'] : List String).length ([] : List String).length :=
  C9_truncation [String.singleton 'x'] [] (Config.mk emptyWord emptyWord emptyWord)
    (by decide)
theorem replayOK_of_bounds (n m : Nat) :
    ∀ (ops : List Char) (i j : Nat),
      i + srcAdv ops ≤ n → j + tgtAdv ops ≤ m →
      replayOK n m i j ops = true := by
  intro ops
  induction ops with
  | nil => intro i j h1 h2; rfl
  | cons code rest ih =>
    intro i j h1 h2
    have hs : srcAdv (code :: rest) =
        srcAdv rest + (if code = 'i' then 0 else 1) := by
      simp only [srcAdv, List.countP_cons]
      by_cases h : code = 'i' <;> simp [h]
    have ht : tgtAdv (code :: rest) =
        tgtAdv rest + (if code = 'd' then 0 else 1) := by
      simp only [tgtAdv, List.countP_cons]
      by_cases h : code = 'd' <;> simp [h]
    rw [hs] at h1
    rw [ht] at h2
    by_cases hd : code = 'd'
    · subst hd
      simp at h1 h2
      simp [replayOK]
      exact ⟨by omega, ih (i+1) j (by omega) (by omega)⟩
    · by_cases hi : code = 'i'
      · subst hi
        simp at h1 h2
        simp [replayOK]
        exact ⟨by omega, ih i (j+1) (by omega) (by omega)⟩
      · simp [hd, hi] at h1 h2
        simp [replayOK, hd, hi]
        exact ⟨⟨by omega, by omega⟩, ih (i+1) (j+1) (by omega) (by omega)⟩

theorem replay_edit_operations (source target : List String) :
    replayOK source.length target.length 0 0 (edit_operations source target) = true := by
  obtain ⟨h1, h2⟩ := walkOps_adv source target (source.length + target.length)
    source.length target.length (le_refl _)
  rw [edit_operations_eq_walkOps]
  exact replayOK_of_bounds _ _ _ 0 0 (by omega) (by omega)
theorem getAlignmentLoop_spec (source target : List String) :
    ∀ (ops : List Char) (i j : Nat) (sPrev tPrev : Option String),
      (∀ x ∈ ops, x = 'e' ∨ x = 's' ∨ x = 'd' ∨ x = 'i') →
      replayOK source.length target.length i j ops = true →
      getAlignmentLoop source target ops i j sPrev tPrev =
        some (rowsOfCols (specColumns source target ops i j)) := by
  intro ops
  induction ops with
  | nil =>
    intro i j sPrev tPrev hchars hrep
    simp [getAlignmentLoop, specColumns, rowsOfCols]
  | cons code rest ih =>
    intro i j sPrev tPrev hchars hrep
    have hcode := hchars code (by simp)
    have hrest : ∀ x ∈ rest, x = 'e' ∨ x = 's' ∨ x = 'd' ∨ x = 'i' :=
      fun x hx => hchars x (by simp [hx])
    rcases hcode with hc | hc | hc | hc <;> subst hc
    · -- equal
      simp [replayOK] at hrep
      obtain ⟨⟨hi, hj⟩, hrep2⟩ := hrep
      simp only [getAlignmentLoop,
        show ('e' : Char).toUpper = 'E' from by decide]
      simp only [show (('E' : Char) = 'I') = False from by decide,
        show (('E' : Char) = 'D') = False from by decide, if_false, if_pos rfl,
        dif_pos hi, dif_pos hj, if_true]
      rw [ih (i+1) (j+1) (some (source.get ⟨i, hi⟩)) (some (target.get ⟨j, hj⟩))
        hrest hrep2]
      dsimp only
      have hgs : source.getD i emptyWord = source.get ⟨i, hi⟩ := by
        rw [List.getD_eq_getElem _ _ hi]; rfl
      have hgt : target.getD j emptyWord = target.get ⟨j, hj⟩ := by
        rw [List.getD_eq_getElem _ _ hj]; rfl
      simp only [specColumns, show (('e' : Char) = 'd') = False from by decide,
        show (('e' : Char) = 'i') = False from by decide, if_false, if_pos rfl,
        if_true, rowsOfCols, List.map_cons, hgs, hgt]
      have hw : colWidth (source.get ⟨i, hi⟩, target.get ⟨j, hj⟩, blankWord) =
          (source.get ⟨i, hi⟩).length ⊔ (target.get ⟨j, hj⟩).length ⊔
            blankWord.length := by
        simp only [colWidth]
        rw [show barStr.length = 1 from rfl, show blankWord.length = 1 from rfl]
        omega
      rw [hw]
    · -- substitute
      simp [replayOK] at hrep
      obtain ⟨⟨hi, hj⟩, hrep2⟩ := hrep
      simp only [getAlignmentLoop,
        show ('s' : Char).toUpper = 'S' from by decide]
      simp only [show (('S' : Char) = 'I') = False from by decide,
        show (('S' : Char) = 'D') = False from by decide,
        show (('S' : Char) = 'E') = False from by decide, if_false,
        dif_pos hi, dif_pos hj]
      rw [ih (i+1) (j+1) (some (source.get ⟨i, hi⟩)) (some (target.get ⟨j, hj⟩))
        hrest hrep2]
      dsimp only
      have hgs : source.getD i emptyWord = source.get ⟨i, hi⟩ := by
        rw [List.getD_eq_getElem _ _ hi]; rfl
      have hgt : target.getD j emptyWord = target.get ⟨j, hj⟩ := by
        rw [List.getD_eq_getElem _ _ hj]; rfl
      simp only [specColumns, show (('s' : Char) = 'd') = False from by decide,
        show (('s' : Char) = 'i') = False from by decide,
        show (('s' : Char) = 'e') = False from by decide, if_false,
        rowsOfCols, List.map_cons, hgs, hgt,
        show ('S' : Char).toString = String.singleton 'S' from rfl]
      have hw : colWidth (source.get ⟨i, hi⟩, target.get ⟨j, hj⟩,
          String.singleton 'S') =
          (source.get ⟨i, hi⟩).length ⊔ (target.get ⟨j, hj⟩).length ⊔
            (String.singleton 'S').length := by
        simp only [colWidth]
        rw [show barStr.length = 1 from rfl,
          show (String.singleton 'S').length = 1 from rfl]
        omega
      rw [hw]
    · -- delete
      simp [replayOK] at hrep
      obtain ⟨hi, hrep2⟩ := hrep
      simp only [getAlignmentLoop,
        show ('d' : Char).toUpper = 'D' from by decide]
      simp only [show (('D' : Char) = 'I') = False from by decide,
        show (('D' : Char) = 'E') = False from by decide, if_false, if_pos rfl,
        if_true, dif_pos hi]
      rw [ih (i+1) j (some (source.get ⟨i, hi⟩)) (some starWord) hrest hrep2]
      dsimp only
      have hgs : source.getD i emptyWord = source.get ⟨i, hi⟩ := by
        rw [List.getD_eq_getElem _ _ hi]; rfl
      simp only [specColumns, if_pos rfl, if_true, rowsOfCols, List.map_cons, hgs,
        show ('D' : Char).toString = String.singleton 'D' from rfl]
      have hw : colWidth (source.get ⟨i, hi⟩, starWord, String.singleton 'D') =
          (source.get ⟨i, hi⟩).length ⊔ starWord.length ⊔
            (String.singleton 'D').length := by
        simp only [colWidth]
        rw [show barStr.length = 1 from rfl, show starWord.length = 1 from rfl,
          show (String.singleton 'D').length = 1 from rfl]
        omega
      rw [hw]
    · -- insert
      simp [replayOK] at hrep
      obtain ⟨hj, hrep2⟩ := hrep
      simp only [getAlignmentLoop,
        show ('i' : Char).toUpper = 'I' from by decide]
      simp only [show (('I' : Char) = 'D') = False from by decide,
        show (('I' : Char) = 'E') = False from by decide, if_false, if_pos rfl,
        if_true, dif_pos hj]
      rw [ih i (j+1) (some starWord) (some (target.get ⟨j, hj⟩)) hrest hrep2]
      dsimp only
      have hgt : target.getD j emptyWord = target.get ⟨j, hj⟩ := by
        rw [List.getD_eq_getElem _ _ hj]; rfl
      simp only [specColumns, show (('i' : Char) = 'd') = False from by decide,
        if_false, if_pos rfl, if_true, rowsOfCols, List.map_cons, hgt,
        show ('I' : Char).toString = String.singleton 'I' from rfl]
      have hw : colWidth (starWord, target.get ⟨j, hj⟩, String.singleton 'I') =
          starWord.length ⊔ (target.get ⟨j, hj⟩).length ⊔
            (String.singleton 'I').length := by
        simp only [colWidth]
        rw [show barStr.length = 1 from rfl, show starWord.length = 1 from rfl,
          show (String.singleton 'I').length = 1 from rfl]
        omega
      rw [hw]
theorem specColumns_length (source target : List String) :
    ∀ (ops : List Char) (i j : Nat),
      (specColumns source target ops i j).length = ops.length := by
  intro ops
  induction ops with
  | nil => intro i j; rfl
  | cons code rest ih =>
    intro i j
    simp only [specColumns]
    split
    · simp [ih]
    · split
      · simp [ih]
      · split
        · simp [ih]
        · simp [ih]

theorem edit_operations_chars (source target : List String) :
    ∀ x ∈ edit_operations source target, x = 'e' ∨ x = 's' ∨ x = 'd' ∨ x = 'i' := by
  rw [edit_operations_eq_walkOps]
  exact walkOps_chars source target (source.length + target.length)
    source.length target.length (le_refl _)

/-- C7: `get_alignment` produces the four parallel rows with exactly one column
per edit operation, where a `delete` renders the target cell as a star and
advances only the source cursor, an `insert` renders the source cell as a star
and advances only the target cursor, an `equal` renders the operation-code cell
blank (not the letter) and advances both cursors, a `substitute` shows both
actual tokens and advances both cursors, and every cell of a column is
center-justified to the maximum width among that column's four entries (source
cell, bar, target cell, code cell); `specColumns`/`rowsOfCols` transcribe that
rendering from the spec's words, and the four rows all have one entry per
operation. -/
theorem C7_alignment_rendering (source target : List String) :
    get_alignment source target =
      some (rowsOfCols (specColumns source target (edit_operations source target) 0 0))
    ∧ (rowsOfCols (specColumns source target
        (edit_operations source target) 0 0)).1.length =
        (edit_operations source target).length
    ∧ (rowsOfCols (specColumns source target
        (edit_operations source target) 0 0)).2.1.length =
        (edit_operations source target).length
    ∧ (rowsOfCols (specColumns source target
        (edit_operations source target) 0 0)).2.2.1.length =
        (edit_operations source target).length
    ∧ (rowsOfCols (specColumns source target
        (edit_operations source target) 0 0)).2.2.2.length =
        (edit_operations source target).length := by
  have hmain := getAlignmentLoop_spec source target (edit_operations source target)
    0 0 none none (edit_operations_chars source target)
    (replay_edit_operations source target)
  refine ⟨hmain, ?_, ?_, ?_, ?_⟩ <;>
    simp [rowsOfCols, specColumns_length]

/-- C10: `get_alignment` is total on every pair of token sequences: along the
operation sequence the source cursor is in range at every operation other than
`insert` and the target cursor at every operation other than `delete` (the
`replayOK` check), so both cell variables are always defined before use and the
function never fails (never returns `none`). -/
theorem C10_get_alignment_safe (source target : List String) :
    replayOK source.length target.length 0 0 (edit_operations source target) = true
    ∧ (get_alignment source target).isSome = true := by
  refine ⟨replay_edit_operations source target, ?_⟩
  have hmain := getAlignmentLoop_spec source target (edit_operations source target)
    0 0 none none (edit_operations_chars source target)
    (replay_edit_operations source target)
  show (getAlignmentLoop source target (edit_operations source target)
    0 0 none none).isSome = true
  rw [hmain]
  rfl
